import Mathlib

/-!
Verification development for a small Python-subset-to-AArch64 compiler.

The compiler pipeline is: source text → line preprocessing (comment
stripping) → lexer → recursive-descent parser → IR generator (symbol
table, string-constant pool, instruction list) → assembly-text generator.
Every definition below is a shallow embedding of the corresponding
function of `compiler.py`; machine-level strings are kept as Lean
`String`s and character lists, Python dataclasses become structures and
inductives, Python exceptions become `Except` errors, and the two
`while` loops that scan a shrinking buffer are written with an explicit
fuel argument equal to (one more than) the input length, which the loop
never exhausts because every iteration consumes at least one element.
-/

set_option maxRecDepth 4096
set_option maxHeartbeats 1000000

/-- The double-quote character, written via its code point. -/
def dquote : Char := Char.ofNat 34

/-- The single-quote character, written via its code point. -/
def squoteStr : String := String.mk [Char.ofNat 39]

/-- Wraps a string in single quotes, as the emitted assembly does for
character immediates such as the zero digit and the newline escape. -/
def quotedImm (s : String) : String := squoteStr ++ s ++ squoteStr

/-- Token kinds of the lexer (`TokenType` enum in the source; `COMMENT`
is declared but never produced). -/
inductive TokenType where
  | PRINT
  | STRING
  | INTEGER
  | PLUS
  | LPAREN
  | RPAREN
  | EOF
  | IDENTIFIER
  | EQUALS
  | INPUT
  | COMMENT
deriving DecidableEq

/-- A lexer token: a kind plus an optional text payload (`Token`). -/
structure Token where
  type : TokenType
  value : Option String
deriving DecidableEq

/-- Lexer failure: `SyntaxError` on an unrecognized character.  The
`outOfFuel` case is the unreachable exhaustion of the explicit loop
bound. -/
inductive LexErr where
  | unexpectedChar (c : Char)
  | outOfFuel
deriving DecidableEq

/-- Characters accepted inside an identifier (`isalnum() or '_'`). -/
def isIdentChar (c : Char) : Bool := c.isAlphanum || c = '_'

/-- The body of `Lexer.get_string`, entered after the opening quote has
been skipped: collect characters until a closing quote or end of input;
the closing quote, when present, is consumed.  Returns the collected
payload and the remaining input. -/
def getStringChars : List Char → List Char × List Char
  | [] => ([], [])
  | c :: rest =>
    if c = dquote then ([], rest)
    else
      let p := getStringChars rest
      (c :: p.1, p.2)

/-- The `Lexer.tokenize` loop.  The branch order matches the source:
whitespace, digits, `+`, `=`, `(`, `)`, string, identifier/keyword,
then the unexpected-character error.  `fuel` bounds the iteration count
and is always at least one more than the remaining input length. -/
def tokenizeAux : Nat → List Char → Except LexErr (List Token)
  | 0, _ => .error .outOfFuel
  | _ + 1, [] => .ok [⟨TokenType.EOF, none⟩]
  | fuel + 1, c :: rest =>
    if c.isWhitespace then tokenizeAux fuel rest
    else if c.isDigit then
      match tokenizeAux fuel (rest.dropWhile Char.isDigit) with
      | .error er => .error er
      | .ok ts =>
          .ok (⟨TokenType.INTEGER, some (String.mk (c :: rest.takeWhile Char.isDigit))⟩ :: ts)
    else if c = '+' then
      match tokenizeAux fuel rest with
      | .error er => .error er
      | .ok ts => .ok (⟨TokenType.PLUS, none⟩ :: ts)
    else if c = '=' then
      match tokenizeAux fuel rest with
      | .error er => .error er
      | .ok ts => .ok (⟨TokenType.EQUALS, none⟩ :: ts)
    else if c = '(' then
      match tokenizeAux fuel rest with
      | .error er => .error er
      | .ok ts => .ok (⟨TokenType.LPAREN, none⟩ :: ts)
    else if c = ')' then
      match tokenizeAux fuel rest with
      | .error er => .error er
      | .ok ts => .ok (⟨TokenType.RPAREN, none⟩ :: ts)
    else if c = dquote then
      match tokenizeAux fuel (getStringChars rest).2 with
      | .error er => .error er
      | .ok ts => .ok (⟨TokenType.STRING, some (String.mk (getStringChars rest).1)⟩ :: ts)
    else if c.isAlpha || c = '_' then
      let ident := String.mk (c :: rest.takeWhile isIdentChar)
      match tokenizeAux fuel (rest.dropWhile isIdentChar) with
      | .error er => .error er
      | .ok ts =>
          .ok ((if ident = "print" then (⟨TokenType.PRINT, none⟩ : Token)
                else if ident = "input" then ⟨TokenType.INPUT, none⟩
                else ⟨TokenType.IDENTIFIER, some ident⟩) :: ts)
    else .error (.unexpectedChar c)

/-- The function `Lexer.tokenize` on one line of already comment-stripped input. -/
def tokenize (src : List Char) : Except LexErr (List Token) :=
  tokenizeAux (src.length + 1) src

/-- AST expressions.  The source keeps separate dataclasses
(`StringLiteral`, `IntegerLiteral`, `BinaryOp`, `Variable`, `Input`);
they form one closed expression family.  `Input.prompt` is declared as
a string literal in the source but the parser stores an arbitrary
parsed expression there, which this embedding reflects. -/
inductive Expr where
  | stringLit (value : String)
  | intLit (value : Nat)
  | binOp (left right : Expr) (op : String)
  | var (name : String)
  | inputE (prompt : Expr)
deriving DecidableEq

/-- AST statements (`PrintStatement` and `Assignment`; the assignment
target `Variable(var_name)` is kept as its name). -/
inductive Stmt where
  | printStmt (expression : Expr)
  | assign (name : String) (value : Expr)
deriving DecidableEq

/-- Parser failure: `SyntaxError` raised by `consume` on a kind
mismatch or by the expression/statement dispatch; `unexpectedEnd`
models running off the token list. -/
inductive ParseErr where
  | expectedToken (expected actual : TokenType)
  | unexpectedToken (t : Token)
  | unexpectedEnd
  | outOfFuel
deriving DecidableEq

/-- Numeric value of a digit run (`int(token.value)`). -/
def digitsToNat (s : List Char) : Nat :=
  s.foldl (fun acc c => acc * 10 + (c.toNat - 48)) 0

/-- The method `Parser.consume`: check the head token's kind and drop it. -/
def consumeTok (k : TokenType) : List Token → Except ParseErr (List Token)
  | [] => .error .unexpectedEnd
  | t :: rest => if t.type = k then .ok rest else .error (.expectedToken k t.type)

/-- The method `Parser.parse_expression`: integer, string and identifier tokens
each yield a leaf; `input` expects `( expression )`; anything else is
an error.  No branch consumes a `Plus` token or builds a `binOp`. -/
def parseExpression : List Token → Except ParseErr (Expr × List Token)
  | [] => .error .unexpectedEnd
  | t :: rest =>
    match t.type with
    | TokenType.INTEGER => .ok (.intLit (digitsToNat (t.value.getD "").data), rest)
    | TokenType.STRING => .ok (.stringLit (t.value.getD ""), rest)
    | TokenType.IDENTIFIER => .ok (.var (t.value.getD ""), rest)
    | TokenType.INPUT =>
      match rest with
      | [] => .error .unexpectedEnd
      | l :: rest1 =>
        if l.type = TokenType.LPAREN then
          match parseExpression rest1 with
          | .error er => .error er
          | .ok (p, rest2) =>
            match rest2 with
            | [] => .error .unexpectedEnd
            | r :: rest3 =>
              if r.type = TokenType.RPAREN then .ok (.inputE p, rest3)
              else .error (.expectedToken TokenType.RPAREN r.type)
        else .error (.expectedToken TokenType.LPAREN l.type)
    | _ => .error (.unexpectedToken t)

/-- The method `Parser.parse_statement`: either `print ( expression )` or
`identifier = expression`. -/
def parseStatement (ts : List Token) : Except ParseErr (Stmt × List Token) :=
  match ts with
  | [] => .error .unexpectedEnd
  | t :: rest =>
    match t.type with
    | TokenType.PRINT =>
      match consumeTok TokenType.LPAREN rest with
      | .error er => .error er
      | .ok r1 =>
        match parseExpression r1 with
        | .error er => .error er
        | .ok (ex, r2) =>
          match consumeTok TokenType.RPAREN r2 with
          | .error er => .error er
          | .ok r3 => .ok (.printStmt ex, r3)
    | TokenType.IDENTIFIER =>
      match consumeTok TokenType.EQUALS rest with
      | .error er => .error er
      | .ok r1 =>
        match parseExpression r1 with
        | .error er => .error er
        | .ok (v, r2) => .ok (.assign (t.value.getD "") v, r2)
    | _ => .error (.unexpectedToken t)

/-- The `Parser.parse` loop: keep parsing statements while more than
one token (the `EOF` sentinel) remains, then consume `EOF`.  Fuel
bounds the number of iterations; each successful statement consumes at
least one token, so the entry point's fuel is never exhausted. -/
def parseProgramAux : Nat → List Token → Except ParseErr (List Stmt)
  | 0, _ => .error .outOfFuel
  | fuel + 1, ts =>
    if ts.length > 1 then
      match parseStatement ts with
      | .error er => .error er
      | .ok (s, rest) =>
        match parseProgramAux fuel rest with
        | .error er => .error er
        | .ok stmts => .ok (s :: stmts)
    else
      match ts with
      | [t] =>
          if t.type = TokenType.EOF then .ok []
          else .error (.expectedToken TokenType.EOF t.type)
      | _ => .error .unexpectedEnd

/-- The method `Parser.parse`, producing the `Program` statement list. -/
def parseProgram (ts : List Token) : Except ParseErr (List Stmt) :=
  parseProgramAux (ts.length + 1) ts

/-- Data-section labels.  String constants are labelled
`string_{string_count}` and input result buffers
`input_result_{string_count}`; the two f-string prefixes are distinct,
so the rendered names coincide exactly when the constructors and
indices coincide. -/
inductive Label where
  | strLabel (k : Nat)
  | inputRes (k : Nat)
deriving DecidableEq

/-- The rendered assembly name of a label. -/
def Label.render : Label → String
  | .strLabel k => "string_" ++ toString k
  | .inputRes k => "input_result_" ++ toString k

/-- A pooled string constant (`IRStringConstant`). -/
structure StrConst where
  value : String
  label : Label
deriving DecidableEq

/-- IR values (`IRStringConstant`, `IRInteger`, `IRVariable`, `IRAdd`,
`IRInput`).  `IRInput.prompt` is annotated as a string constant in
the source but holds whatever the prompt expression lowered to. -/
inductive IRValue where
  | strConst (value : String) (label : Label)
  | intVal (value : Nat)
  | varRef (name : String)
  | add (left right : IRValue)
  | inputVal (prompt : IRValue) (result : Label)
deriving DecidableEq

/-- IR instructions as they appear in `IRGenerator.instructions`:
`IRPrintCall`, `IRPrintInt`, and appended `IRInput` values (the
generator appends the input value object itself, carried here by
`inputInstr`). -/
inductive IRInstr where
  | printCall (stringRef : Label)
  | printInt (expression : IRValue)
  | inputInstr (value : IRValue)
deriving DecidableEq

/-- IR-generation failure: `NameError` for an undefined variable and
`ValueError` for an unsupported expression node. -/
inductive GenErr where
  | undefinedVariable (name : String)
  | unsupportedExpression
deriving DecidableEq

/-- The `IRGenerator` instance state: string-constant pool, instruction
list, label counter and symbol table, in the source's field order.  The
Python `variables` dict is modelled as an association list whose most
recent binding wins on lookup. -/
structure GenState where
  stringConstants : List StrConst
  instructions : List IRInstr
  stringCount : Nat
  varTable : List (String × IRValue)
deriving DecidableEq

/-- Fresh generator state, as built by `IRGenerator.__init__`. -/
def initState : GenState := ⟨[], [], 0, []⟩

/-- Dictionary lookup in the symbol table (`expr.name in self.varTable`
followed by `self.varTable[expr.name]`). -/
def lookupVar : List (String × IRValue) → String → Option IRValue
  | [], _ => none
  | (m, v) :: rest, n => if m = n then some v else lookupVar rest n

/-- Dictionary store `self.varTable[name] = value`; the new binding
shadows any older one on lookup. -/
def updateVars (l : List (String × IRValue)) (n : String) (v : IRValue) :
    List (String × IRValue) :=
  (n, v) :: l

/-- The method `IRGenerator.generate_expression`.  String literals allocate the
label `string_{string_count}`, bump the counter and append to the pool;
variables resolve against the symbol table or fail with `NameError`;
`input` lowers its prompt and pairs it with the result label
`input_result_{string_count}` read from the counter *after* the prompt
was lowered, without bumping the counter; a `binOp` whose operator is
not `+` falls through to `ValueError`. -/
def generateExpression : Expr → GenState → Except GenErr (IRValue × GenState)
  | .intLit n, σ => .ok (.intVal n, σ)
  | .stringLit s, σ =>
      .ok (.strConst s (.strLabel σ.stringCount),
        { σ with
            stringCount := σ.stringCount + 1,
            stringConstants := σ.stringConstants ++ [⟨s, .strLabel σ.stringCount⟩] })
  | .binOp l r op, σ =>
      if op = "+" then
        match generateExpression l σ with
        | .error er => .error er
        | .ok (lv, σ1) =>
          match generateExpression r σ1 with
          | .error er => .error er
          | .ok (rv, σ2) => .ok (.add lv rv, σ2)
      else .error .unsupportedExpression
  | .var n, σ =>
      match lookupVar σ.varTable n with
      | some v => .ok (v, σ)
      | none => .error (.undefinedVariable n)
  | .inputE p, σ =>
      match generateExpression p σ with
      | .error er => .error er
      | .ok (pv, σ1) => .ok (.inputVal pv (.inputRes σ1.stringCount), σ1)

/-- The bare-variable branch of `PrintStatement` lowering: dispatch on
the kind of the stored binding.  A string constant yields a print call
on its label, integers and adds a `printInt`, an input descriptor a
print call on its result label, and any other kind appends nothing
(no `isinstance` branch matches). -/
def varPrintInstrs : IRValue → List IRInstr
  | .strConst _ lbl => [.printCall lbl]
  | .intVal n => [.printInt (.intVal n)]
  | .add l r => [.printInt (.add l r)]
  | .inputVal _ res => [.printCall res]
  | .varRef _ => []

/-- The general-expression branch of `PrintStatement` lowering: a
string constant yields a print call on its label and everything else a
`printInt` of the lowered value. -/
def exprPrintInstr : IRValue → IRInstr
  | .strConst _ lbl => .printCall lbl
  | v => .printInt v

/-- The syntactic `isinstance(statement.value, Input)` test on an
assignment's right-hand side. -/
def isInputExpr : Expr → Bool
  | .inputE _ => true
  | _ => false

/-- One iteration of `IRGenerator.generate`: lower a single statement,
threading the generator state.  Printing a bare variable dispatches on
its binding; printing anything else lowers it first; an assignment
lowers its right-hand side, appends the resulting value to the
instruction list when the right-hand side is syntactically an `input`
call, and stores the binding. -/
def lowerStatement : Stmt → GenState → Except GenErr GenState
  | .printStmt ex, σ =>
    match ex with
    | .var n =>
      match lookupVar σ.varTable n with
      | none => .error (.undefinedVariable n)
      | some v => .ok { σ with instructions := σ.instructions ++ varPrintInstrs v }
    | _ =>
      match generateExpression ex σ with
      | .error er => .error er
      | .ok (v, σ1) =>
          .ok { σ1 with instructions := σ1.instructions ++ [exprPrintInstr v] }
  | .assign n rhs, σ =>
    match generateExpression rhs σ with
    | .error er => .error er
    | .ok (v, σ1) =>
      let σ2 :=
        if isInputExpr rhs then
          { σ1 with instructions := σ1.instructions ++ [.inputInstr v] }
        else σ1
      .ok { σ2 with varTable := updateVars σ2.varTable n v }

/-- The method `IRGenerator.generate`: fold statement lowering over the program,
stopping at the first error. -/
def generate : List Stmt → GenState → Except GenErr GenState
  | [], σ => .ok σ
  | stmt :: rest, σ =>
    match lowerStatement stmt σ with
    | .error er => .error er
    | .ok σ1 => generate rest σ1

/-- Assembly-generation failure: accessing `.label` on a prompt value
that is not a string constant raises `AttributeError` in the source
(reachable only from `input` prompts that are not string literals). -/
inductive AsmErr where
  | attributeError
deriving DecidableEq

/-- The constant `AssemblyGenerator.input_buffer_size`. -/
def inputBufferSize : Nat := 100

/-- Data-section declarations for input result buffers: one fixed-size
buffer plus a length symbol per `IRInput` instruction, in instruction
order. -/
def dataInputBuffers : List IRInstr → List String
  | [] => []
  | .inputInstr (.inputVal _ res) :: rest =>
      [res.render ++ ":",
       "    .space " ++ toString inputBufferSize,
       "    .set len_" ++ res.render ++ ", " ++ toString inputBufferSize]
        ++ dataInputBuffers rest
  | _ :: rest => dataInputBuffers rest

/-- Data-section declarations for pooled string constants, in pool
order: label, `.ascii` byte content, and a length symbol. -/
def dataStringConstants : List StrConst → List String
  | [] => []
  | c :: rest =>
      [c.label.render ++ ":",
       "    .ascii \x22" ++ c.value ++ "\x22",
       "    .set len_" ++ c.label.render ++ ", . - " ++ c.label.render]
        ++ dataStringConstants rest

/-- Whether any `IRPrintInt` instruction occurs in the program. -/
def hasPrintInt (l : List IRInstr) : Bool :=
  l.any fun i =>
    match i with
    | .printInt _ => true
    | _ => false

/-- The shared digit table and scratch buffer, emitted once when the
program prints any integer. -/
def numberBlock : List String :=
  ["number_str:",
   "    .ascii \x220123456789\\n\x22",
   "buffer:",
   "    .fill 20, 1, 0  // Buffer for number conversion"]

/-- The method `AssemblyGenerator.generate_expression`: evaluate an IR arithmetic
expression into `x0`; an add evaluates its left operand, spills it,
evaluates the right operand and adds.  Value kinds with no
`isinstance` branch emit nothing. -/
def genExprAsm : IRValue → List String
  | .intVal n => ["    mov x0, #" ++ toString n]
  | .add l r =>
      genExprAsm l ++ ["    str x0, [sp, #-16]!"] ++ genExprAsm r
        ++ ["    mov x1, x0", "    ldr x0, [sp], #16", "    add x0, x0, x1"]
  | _ => []

/-- The fixed instruction block emitted after the integer to print has
been evaluated into `x0`: zero is special-cased to the single digit
`0`; otherwise a divide-by-ten loop stores the digits into the scratch
buffer least-significant first; the block labelled `2:` carries the
comment `Reverse the string` but only initializes `x3`/`x4` and falls
straight through to the newline append at `3:` — no reversal loop is
emitted; finally the buffer is written to standard output with length
`x2`. -/
def printIntBlock : List String :=
  ["    adrp    x1, buffer@PAGE",
   "    add     x1, x1, buffer@PAGEOFF",
   "    mov     x2, #0          // String length counter",
   "    mov     x3, #10         // For division by 10",
   "    cmp     x0, #0",
   "    b.ne    1f",
   "    mov     x4, #" ++ quotedImm "0",
   "    strb    w4, [x1]",
   "    mov     x2, #1",
   "    b       3f",
   "1:  // Start conversion loop",
   "    cbz     x0, 2f",
   "    udiv    x4, x0, x3",
   "    msub    x5, x4, x3, x0",
   "    add     x5, x5, #" ++ quotedImm "0",
   "    strb    w5, [x1, x2]",
   "    add     x2, x2, #1",
   "    mov     x0, x4",
   "    b       1b",
   "2:  // Reverse the string",
   "    mov     x3, #0",
   "    sub     x4, x2, #1",
   "3:  // Add newline",
   "    mov     w4, #" ++ quotedImm "\\n",
   "    strb    w4, [x1, x2]",
   "    add     x2, x2, #1",
   "    mov     x0, #1",
   "    mov     x16, #4",
   "    svc     #0x80"]

/-- Text-section code for one IR instruction: a write syscall for a
print call, expression evaluation plus the stringification block for an
integer print, and prompt write / buffered read / length save for an
input. -/
def instrAsm : IRInstr → Except AsmErr (List String)
  | .printCall lbl => .ok
      ["\n    // Write string to stdout",
       "    mov     x0, #1              // stdout",
       "    adrp    x1, " ++ lbl.render ++ "@PAGE",
       "    add     x1, x1, " ++ lbl.render ++ "@PAGEOFF",
       "    mov     x2, #len_" ++ lbl.render,
       "    mov     x16, #4            // macOS write syscall",
       "    svc     #0x80             // invoke syscall"]
  | .printInt ex => .ok
      (["\n    // Print integer"] ++ genExprAsm ex ++ printIntBlock)
  | .inputInstr v =>
    match v with
    | .inputVal (.strConst _ plbl) res => .ok
        ["\n    // Print input prompt",
         "    mov     x0, #1              // stdout",
         "    adrp    x1, " ++ plbl.render ++ "@PAGE",
         "    add     x1, x1, " ++ plbl.render ++ "@PAGEOFF",
         "    mov     x2, #len_" ++ plbl.render,
         "    mov     x16, #4            // macOS write syscall",
         "    svc     #0x80             // invoke syscall",
         "\n    // Read input from stdin",
         "    mov     x0, #0              // stdin",
         "    adrp    x1, " ++ res.render ++ "@PAGE",
         "    add     x1, x1, " ++ res.render ++ "@PAGEOFF",
         "    mov     x2, #len_" ++ res.render ++ "  // buffer size",
         "    mov     x16, #3            // macOS read syscall",
         "    svc     #0x80             // invoke syscall",
         "    str     x0, [sp, #-16]!    // Save input length"]
    | _ => .error .attributeError

/-- Text-section code for the whole instruction list, in order. -/
def instrsAsm : List IRInstr → Except AsmErr (List String)
  | [] => .ok []
  | i :: rest =>
    match instrAsm i with
    | .error er => .error er
    | .ok ls =>
      match instrsAsm rest with
      | .error er => .error er
      | .ok rs => .ok (ls ++ rs)

/-- The method `AssemblyGenerator.generate`, as the list of lines later joined
with newlines: directives, data section (input buffers, string
constants, optional number block), then the entry routine wrapping the
per-instruction code, the exit syscall and the epilogue. -/
def asmLines (σ : GenState) : Except AsmErr (List String) :=
  match instrsAsm σ.instructions with
  | .error er => .error er
  | .ok body => .ok
      ([".global _main", ".align 4", "\n.data"]
        ++ dataInputBuffers σ.instructions
        ++ dataStringConstants σ.stringConstants
        ++ (if hasPrintInt σ.instructions then numberBlock else [])
        ++ ["\n.text", "_main:",
            "    // Save frame pointer",
            "    stp x29, x30, [sp, #-16]!",
            "    mov x29, sp"]
        ++ body
        ++ ["\n    // Exit",
            "    mov     x0, #0",
            "    mov     x16, #1",
            "    svc     #0x80",
            "\n    // Restore frame pointer",
            "    ldp x29, x30, [sp], #16",
            "    ret"])

/-- Splits source text at every newline character (`split('\n')`),
keeping empty pieces. -/
def splitLines : List Char → List (List Char)
  | [] => [[]]
  | c :: rest =>
    if c = '\n' then [] :: splitLines rest
    else
      match splitLines rest with
      | [] => [[c]]
      | l :: ls => (c :: l) :: ls

/-- Python `str.strip()`: drop leading and trailing whitespace. -/
def trimChars (l : List Char) : List Char :=
  ((l.dropWhile Char.isWhitespace).reverse.dropWhile Char.isWhitespace).reverse

/-- Whether a line contains the triple-double-quote delimiter
(`'\x22\x22\x22' in line`). -/
def containsTripleQuote : List Char → Bool
  | a :: b :: c :: rest =>
    if a = dquote && b = dquote && c = dquote then true
    else containsTripleQuote (b :: c :: rest)
  | _ => false

/-- The preprocessed source lines of `compile_to_assembly`: split at
newlines, strip each line, and drop the blank ones. -/
def sourceLines (src : String) : List (List Char) :=
  ((splitLines src.data).map trimChars).filter (fun l => !l.isEmpty)

/-- The per-line loop of `compile_to_assembly`: a line containing a
triple quote toggles multiline-comment mode and is skipped; lines
inside that mode are skipped; otherwise the part before the first `#`
is stripped and, when nonempty, tokenized, and its tokens minus the
per-line `EOF` sentinel are accumulated. -/
def processLines : List (List Char) → Bool → Except LexErr (List Token)
  | [], _ => .ok []
  | line :: rest, inComment =>
    if containsTripleQuote line then processLines rest (!inComment)
    else if inComment then processLines rest inComment
    else
      let codePart := trimChars (line.takeWhile (fun c => c != '#'))
      if codePart.isEmpty then processLines rest inComment
      else
        match tokenize codePart with
        | .error er => .error er
        | .ok ts =>
          match processLines rest inComment with
          | .error er => .error er
          | .ok rs => .ok (ts.dropLast ++ rs)

/-- Pipeline failure: the first error raised by any stage. -/
inductive CompileErr where
  | lexFailure (e : LexErr)
  | parseFailure (e : ParseErr)
  | genFailure (e : GenErr)
  | asmFailure (e : AsmErr)
deriving DecidableEq

/-- The token stream of `compile_to_assembly`: per-line tokens followed
by the final `EOF` sentinel. -/
def pipelineTokens (src : String) : Except LexErr (List Token) :=
  match processLines (sourceLines src) false with
  | .error er => .error er
  | .ok ts => .ok (ts ++ [⟨TokenType.EOF, none⟩])

/-- Lexing plus parsing of one source text. -/
def programOf (src : String) : Except CompileErr (List Stmt) :=
  match pipelineTokens src with
  | .error er => .error (.lexFailure er)
  | .ok ts =>
    match parseProgram ts with
    | .error er => .error (.parseFailure er)
    | .ok stmts => .ok stmts

/-- IR generation and assembly emission for an already parsed program;
an error at either stage aborts with no assembly output. -/
def lowerAndEmit (stmts : List Stmt) : Except CompileErr (List String) :=
  match generate stmts initState with
  | .error er => .error (.genFailure er)
  | .ok σ =>
    match asmLines σ with
    | .error er => .error (.asmFailure er)
    | .ok ls => .ok ls

/-- The IR generator state reached by one compilation of a source
text. -/
def irOf (src : String) : Except CompileErr GenState :=
  match programOf src with
  | .error er => .error er
  | .ok stmts =>
    match generate stmts initState with
    | .error er => .error (.genFailure er)
    | .ok σ => .ok σ

/-- The emitted assembly, line by line, for one source text. -/
def asmLinesOf (src : String) : Except CompileErr (List String) :=
  match programOf src with
  | .error er => .error er
  | .ok stmts => lowerAndEmit stmts

/-- The function `compile_to_assembly`: the full pipeline from source text to the
newline-joined assembly text. -/
def compileToAssembly (src : String) : Except CompileErr String :=
  match asmLinesOf src with
  | .error er => .error er
  | .ok ls => .ok (String.intercalate "\n" ls)

/-- The ASCII digit character for a remainder, as produced by the
emitted `add x5, x5, #'0'` instruction. -/
def digitChar (d : Nat) : Char := Char.ofNat (48 + d)

/-- The divide-by-ten loop of the emitted stringification block
(labels `1:` to `2:`): while the accumulator is nonzero, store the
remainder digit at the current length offset and divide by ten.  The
digits therefore land in the buffer least-significant first.  Fuel
equals the starting value, which bounds the iteration count. -/
def lsdDigitsAux : Nat → Nat → List Char
  | 0, _ => []
  | fuel + 1, n => if n = 0 then [] else digitChar (n % 10) :: lsdDigitsAux fuel (n / 10)

/-- The buffer contents produced by the emitted conversion loop for a
nonzero accumulator value. -/
def lsdDigits (n : Nat) : List Char := lsdDigitsAux n n

/-- The exact byte sequence the emitted integer-print routine
(`printIntBlock`) writes to standard output when the evaluated
expression is the non-negative value `n`: the zero special case stores
the single digit `0`; otherwise the conversion loop stores the digits
least-significant first; the block labelled `2:` (comment `Reverse the
string`) sets up `x3 := 0` and `x4 := x2 - 1` but contains no loop and
falls through to `3:`, so the digits are left unreversed; then one
newline byte is appended and the first `x2` buffer bytes are
written. -/
def emittedIntChars (n : Nat) : List Char :=
  (if n = 0 then [digitChar 0] else lsdDigits n) ++ ['\n']

/-- Modelled from the spec's words, for comparison: the exact decimal
representation of `n`, most-significant digit first, followed by one
newline. -/
def decimalNewline (n : Nat) : List Char := Nat.toDigits 10 n ++ ['\n']

/-- Whether an expression contains a `binOp` node anywhere. -/
def exprNoBin : Expr → Bool
  | .binOp _ _ _ => false
  | .inputE p => exprNoBin p
  | _ => true

/-- Whether a statement contains a `binOp` node anywhere. -/
def stmtNoBin : Stmt → Bool
  | .printStmt ex => exprNoBin ex
  | .assign _ ex => exprNoBin ex

/-- Whether the expression contains a reference to the variable
named `v`. -/
def exprReads (v : String) : Expr → Bool
  | .stringLit _ => false
  | .intLit _ => false
  | .var n => n = v
  | .binOp l r _ => exprReads v l || exprReads v r
  | .inputE p => exprReads v p

/-- Whether the statement reads the variable named `v` somewhere in its
expression. -/
def stmtReads (v : String) : Stmt → Bool
  | .printStmt ex => exprReads v ex
  | .assign _ ex => exprReads v ex

/-- Whether the statement is an assignment to the variable named
`v`. -/
def stmtAssigns (v : String) : Stmt → Bool
  | .assign n _ => n = v
  | .printStmt _ => false

/-- Whether every `input` call in the expression has a string literal
as its prompt. -/
def exprPromptsLit : Expr → Bool
  | .stringLit _ => true
  | .intLit _ => true
  | .var _ => true
  | .binOp l r _ => exprPromptsLit l && exprPromptsLit r
  | .inputE (.stringLit _) => true
  | .inputE _ => false

/-- Whether every `input` call in the statement has a string literal
prompt. -/
def stmtPromptsLit : Stmt → Bool
  | .printStmt ex => exprPromptsLit ex
  | .assign _ ex => exprPromptsLit ex

/-- The labels of the string-constant pool, in pool order. -/
def poolLabels (σ : GenState) : List Label := σ.stringConstants.map StrConst.label

/-- The result-buffer labels of the `IRInput` instructions, in
instruction order. -/
def resLabels (l : List IRInstr) : List Label :=
  l.filterMap fun i =>
    match i with
    | .inputInstr (.inputVal _ res) => some res
    | _ => none

/-- How many times a given line occurs in an emitted line list. -/
def countLine (lines : List String) (s : String) : Nat :=
  (lines.filter (fun l => l == s)).length

/-- The value kinds the print dispatch can receive from a stored,
printable binding other than an input descriptor: string constants,
integers and adds. -/
def plainPrintableKind : IRValue → Bool
  | .strConst _ _ => true
  | .intVal _ => true
  | .add _ _ => true
  | _ => false

/-- Equality of pipeline results is decidable, so concrete compilations
can be checked by evaluation. -/
instance {ε α : Type} [DecidableEq ε] [DecidableEq α] : DecidableEq (Except ε α) := fun a b =>
  match a, b with
  | .ok x, .ok y =>
      if h : x = y then .isTrue (by rw [h]) else .isFalse (fun hh => by cases hh; exact h rfl)
  | .error x, .error y =>
      if h : x = y then .isTrue (by rw [h]) else .isFalse (fun hh => by cases hh; exact h rfl)
  | .ok _, .error _ => .isFalse (fun hh => by cases hh)
  | .error _, .ok _ => .isFalse (fun hh => by cases hh)

/-- Expression lowering never touches the instruction list or the
symbol table, only grows the label counter, and preserves the shape of
the string pool's labels as an initial segment of `string_k` labels. -/
theorem generateExpression_state (ex : Expr) :
    ∀ σ v σ2, generateExpression ex σ = .ok (v, σ2) →
      σ2.instructions = σ.instructions ∧ σ2.varTable = σ.varTable ∧
      σ.stringCount ≤ σ2.stringCount ∧
      (σ.stringConstants.map StrConst.label =
          (List.range σ.stringCount).map Label.strLabel →
        σ2.stringConstants.map StrConst.label =
          (List.range σ2.stringCount).map Label.strLabel) := by
  induction ex with
  | stringLit s =>
    intro σ v σ2 h
    simp only [generateExpression, Except.ok.injEq, Prod.mk.injEq] at h
    obtain ⟨-, rfl⟩ := h
    refine ⟨rfl, rfl, Nat.le_succ _, fun hp => ?_⟩
    simp [List.range_succ, hp]
  | intLit n =>
    intro σ v σ2 h
    simp only [generateExpression, Except.ok.injEq, Prod.mk.injEq] at h
    obtain ⟨-, rfl⟩ := h
    exact ⟨rfl, rfl, le_refl _, fun hp => hp⟩
  | binOp l r op ihl ihr =>
    intro σ v σ2 h
    simp only [generateExpression] at h
    split at h
    · cases hl : generateExpression l σ with
      | error er => simp only [hl] at h; cases h
      | ok p =>
        obtain ⟨lv, σa⟩ := p
        simp only [hl] at h
        cases hr : generateExpression r σa with
        | error er => simp only [hr] at h; cases h
        | ok q =>
          obtain ⟨rv, σb⟩ := q
          simp only [hr, Except.ok.injEq, Prod.mk.injEq] at h
          obtain ⟨-, rfl⟩ := h
          obtain ⟨ha1, ha2, ha3, ha4⟩ := ihl σ lv σa hl
          obtain ⟨hb1, hb2, hb3, hb4⟩ := ihr σa rv σb hr
          exact ⟨hb1.trans ha1, hb2.trans ha2, le_trans ha3 hb3, fun hp => hb4 (ha4 hp)⟩
    · cases h
  | var n =>
    intro σ v σ2 h
    simp only [generateExpression] at h
    cases hv : lookupVar σ.varTable n with
    | none => simp only [hv] at h; cases h
    | some w =>
      simp only [hv, Except.ok.injEq, Prod.mk.injEq] at h
      obtain ⟨-, rfl⟩ := h
      exact ⟨rfl, rfl, le_refl _, fun hp => hp⟩
  | inputE p ih =>
    intro σ v σ2 h
    simp only [generateExpression] at h
    cases hp : generateExpression p σ with
    | error er => simp only [hp] at h; cases h
    | ok q =>
      obtain ⟨pv, σa⟩ := q
      simp only [hp, Except.ok.injEq, Prod.mk.injEq] at h
      obtain ⟨-, rfl⟩ := h
      exact ih σ pv _ hp

/-- If expression lowering succeeds, every variable the expression
reads was bound in the symbol table it started from. -/
theorem generateExpression_reads (ex : Expr) :
    ∀ σ v σ2 x, generateExpression ex σ = .ok (v, σ2) → exprReads x ex = true →
      (lookupVar σ.varTable x).isSome = true := by
  induction ex with
  | stringLit s => intro σ v σ2 x h hr; simp [exprReads] at hr
  | intLit n => intro σ v σ2 x h hr; simp [exprReads] at hr
  | binOp l r op ihl ihr =>
    intro σ v σ2 x h hr
    simp only [generateExpression] at h
    split at h
    · cases hl : generateExpression l σ with
      | error er => simp only [hl] at h; cases h
      | ok p =>
        obtain ⟨lv, σa⟩ := p
        simp only [hl] at h
        cases hrr : generateExpression r σa with
        | error er => simp only [hrr] at h; cases h
        | ok q =>
          obtain ⟨rv, σb⟩ := q
          simp only [exprReads, Bool.or_eq_true] at hr
          cases hr with
          | inl hx => exact ihl σ lv σa x hl hx
          | inr hx =>
            obtain ⟨-, hvt, -, -⟩ := generateExpression_state l σ lv σa hl
            have := ihr σa rv σb x hrr hx
            rwa [hvt] at this
    · cases h
  | var n =>
    intro σ v σ2 x h hr
    simp only [exprReads, decide_eq_true_eq] at hr
    subst hr
    simp only [generateExpression] at h
    cases hv : lookupVar σ.varTable n with
    | none => simp only [hv] at h; cases h
    | some w => simp [hv]
  | inputE p ih =>
    intro σ v σ2 x h hr
    simp only [generateExpression] at h
    cases hp : generateExpression p σ with
    | error er => simp only [hp] at h; cases h
    | ok q =>
      obtain ⟨pv, σa⟩ := q
      exact ih σ pv σa x hp (by simpa [exprReads] using hr)

/-- On a `binOp`-free expression the only error expression lowering can
raise is the undefined-variable `NameError`. -/
theorem generateExpression_err (ex : Expr) :
    ∀ σ er, exprNoBin ex = true → generateExpression ex σ = .error er →
      ∃ n, er = GenErr.undefinedVariable n := by
  induction ex with
  | stringLit s => intro σ er hnb h; simp [generateExpression] at h
  | intLit n => intro σ er hnb h; simp [generateExpression] at h
  | binOp l r op ihl ihr => intro σ er hnb h; simp [exprNoBin] at hnb
  | var n =>
    intro σ er hnb h
    simp only [generateExpression] at h
    cases hv : lookupVar σ.varTable n with
    | none =>
      simp only [hv, Except.error.injEq] at h
      exact ⟨n, h.symm⟩
    | some w => simp only [hv] at h; cases h
  | inputE p ih =>
    intro σ er hnb h
    simp only [generateExpression] at h
    cases hp : generateExpression p σ with
    | error er2 =>
      simp only [hp, Except.error.injEq] at h
      subst h
      exact ih σ er2 (by simpa [exprNoBin] using hnb) hp
    | ok q =>
      obtain ⟨pv, σa⟩ := q
      simp only [hp] at h; cases h

/-- Storing a binding for one name leaves lookups of other names
unchanged. -/
theorem lookupVar_update_ne (l : List (String × IRValue)) (n m : String) (v : IRValue)
    (h : m ≠ n) : lookupVar (updateVars l n v) m = lookupVar l m := by
  simp only [updateVars, lookupVar]
  rw [if_neg (fun hh => h hh.symm)]

/-- On a `binOp`-free statement the only error statement lowering can
raise is the undefined-variable `NameError`. -/
theorem lowerStatement_err (s : Stmt) (σ : GenState) (er : GenErr)
    (hnb : stmtNoBin s = true) (h : lowerStatement s σ = .error er) :
    ∃ n, er = GenErr.undefinedVariable n := by
  cases s with
  | printStmt ex =>
    cases ex with
    | var n =>
      simp only [lowerStatement] at h
      cases hv : lookupVar σ.varTable n with
      | none =>
        simp only [hv, Except.error.injEq] at h
        exact ⟨n, h.symm⟩
      | some w => simp only [hv] at h; cases h
    | stringLit s2 =>
      simp only [lowerStatement] at h
      cases hg : generateExpression (Expr.stringLit s2) σ with
      | error er2 =>
        simp only [hg, Except.error.injEq] at h
        subst h
        exact generateExpression_err _ σ er2 (by simp [exprNoBin]) hg
      | ok q => obtain ⟨v, σ1⟩ := q; simp only [hg] at h; cases h
    | intLit k =>
      simp only [lowerStatement] at h
      cases hg : generateExpression (Expr.intLit k) σ with
      | error er2 =>
        simp only [hg, Except.error.injEq] at h
        subst h
        exact generateExpression_err _ σ er2 (by simp [exprNoBin]) hg
      | ok q => obtain ⟨v, σ1⟩ := q; simp only [hg] at h; cases h
    | binOp l r op => simp [stmtNoBin, exprNoBin] at hnb
    | inputE p =>
      simp only [lowerStatement] at h
      cases hg : generateExpression (Expr.inputE p) σ with
      | error er2 =>
        simp only [hg, Except.error.injEq] at h
        subst h
        exact generateExpression_err _ σ er2 (by simpa [stmtNoBin] using hnb) hg
      | ok q => obtain ⟨v, σ1⟩ := q; simp only [hg] at h; cases h
  | assign n rhs =>
    simp only [lowerStatement] at h
    cases hg : generateExpression rhs σ with
    | error er2 =>
      simp only [hg, Except.error.injEq] at h
      subst h
      exact generateExpression_err _ σ er2 (by simpa [stmtNoBin] using hnb) hg
    | ok q => obtain ⟨v, σ1⟩ := q; simp only [hg] at h; cases h

/-- Lowering a statement that does not assign `x` cannot make `x`
bound. -/
theorem lowerStatement_unbound (s : Stmt) (σ σ1 : GenState) (x : String)
    (hna : stmtAssigns x s = false) (h : lowerStatement s σ = .ok σ1)
    (hx : lookupVar σ.varTable x = none) : lookupVar σ1.varTable x = none := by
  cases s with
  | printStmt ex =>
    cases hex : ex with
    | var n =>
      subst hex
      simp only [lowerStatement] at h
      cases hv : lookupVar σ.varTable n with
      | none => simp only [hv] at h; cases h
      | some w =>
        simp only [hv, Except.ok.injEq] at h
        subst h
        exact hx
    | binOp l r op =>
      subst hex
      simp only [lowerStatement] at h
      cases hg : generateExpression (Expr.binOp l r op) σ with
      | error er => simp only [hg] at h; cases h
      | ok q =>
        obtain ⟨v, σa⟩ := q
        simp only [hg, Except.ok.injEq] at h
        subst h
        obtain ⟨-, hvt, -, -⟩ := generateExpression_state _ σ v σa hg
        simpa [hvt] using hx
    | stringLit s2 =>
      subst hex
      simp only [lowerStatement] at h
      cases hg : generateExpression (Expr.stringLit s2) σ with
      | error er => simp only [hg] at h; cases h
      | ok q =>
        obtain ⟨v, σa⟩ := q
        simp only [hg, Except.ok.injEq] at h
        subst h
        obtain ⟨-, hvt, -, -⟩ := generateExpression_state _ σ v σa hg
        simpa [hvt] using hx
    | intLit k =>
      subst hex
      simp only [lowerStatement] at h
      cases hg : generateExpression (Expr.intLit k) σ with
      | error er => simp only [hg] at h; cases h
      | ok q =>
        obtain ⟨v, σa⟩ := q
        simp only [hg, Except.ok.injEq] at h
        subst h
        obtain ⟨-, hvt, -, -⟩ := generateExpression_state _ σ v σa hg
        simpa [hvt] using hx
    | inputE p =>
      subst hex
      simp only [lowerStatement] at h
      cases hg : generateExpression (Expr.inputE p) σ with
      | error er => simp only [hg] at h; cases h
      | ok q =>
        obtain ⟨v, σa⟩ := q
        simp only [hg, Except.ok.injEq] at h
        subst h
        obtain ⟨-, hvt, -, -⟩ := generateExpression_state _ σ v σa hg
        simpa [hvt] using hx
  | assign n rhs =>
    simp only [stmtAssigns, decide_eq_false_iff_not] at hna
    simp only [lowerStatement] at h
    cases hg : generateExpression rhs σ with
    | error er => simp only [hg] at h; cases h
    | ok q =>
      obtain ⟨v, σa⟩ := q
      simp only [hg, Except.ok.injEq] at h
      obtain ⟨-, hvt, -, -⟩ := generateExpression_state _ σ v σa hg
      subst h
      by_cases hin : isInputExpr rhs = true
      · simp only [hin, if_true]
        rw [lookupVar_update_ne _ _ _ _ (fun hh => hna hh.symm)]
        simpa [hvt] using hx
      · simp only [Bool.not_eq_true] at hin
        simp only [hin, Bool.false_eq_true, if_false]
        rw [lookupVar_update_ne _ _ _ _ (fun hh => hna hh.symm)]
        simpa [hvt] using hx

/-- Lowering a statement that reads an unbound variable fails with the
undefined-variable error (on `binOp`-free statements). -/
theorem lowerStatement_fails (s : Stmt) (σ : GenState) (x : String)
    (hnb : stmtNoBin s = true) (hr : stmtReads x s = true)
    (hx : lookupVar σ.varTable x = none) :
    ∃ n, lowerStatement s σ = .error (GenErr.undefinedVariable n) := by
  cases s with
  | printStmt ex =>
    cases hex : ex with
    | var n =>
      subst hex
      simp only [stmtReads, exprReads, decide_eq_true_eq] at hr
      subst hr
      exact ⟨n, by simp [lowerStatement, hx]⟩
    | stringLit s2 => subst hex; simp [stmtReads, exprReads] at hr
    | intLit k => subst hex; simp [stmtReads, exprReads] at hr
    | binOp l r op => subst hex; simp [stmtNoBin, exprNoBin] at hnb
    | inputE p =>
      subst hex
      cases hg : generateExpression (Expr.inputE p) σ with
      | error er =>
        obtain ⟨n, rfl⟩ :=
          generateExpression_err _ σ er (by simpa [stmtNoBin] using hnb) hg
        exact ⟨n, by simp [lowerStatement, hg]⟩
      | ok q =>
        obtain ⟨v, σa⟩ := q
        have := generateExpression_reads _ σ v σa x hg (by simpa [stmtReads] using hr)
        rw [hx] at this
        cases this
  | assign n rhs =>
    cases hg : generateExpression rhs σ with
    | error er =>
      obtain ⟨m, rfl⟩ :=
        generateExpression_err _ σ er (by simpa [stmtNoBin] using hnb) hg
      exact ⟨m, by simp [lowerStatement, hg]⟩
    | ok q =>
      obtain ⟨v, σa⟩ := q
      have := generateExpression_reads _ σ v σa x hg (by simpa [stmtReads] using hr)
      rw [hx] at this
      cases this

/-- A successful `consume` means the head token had the expected kind
and was dropped. -/
theorem consumeTok_ok (k : TokenType) (ts rest : List Token)
    (h : consumeTok k ts = .ok rest) : ∃ t, ts = t :: rest ∧ t.type = k := by
  cases ts with
  | nil => simp [consumeTok] at h
  | cons t rest0 =>
    simp only [consumeTok] at h
    by_cases ht : t.type = k
    · rw [if_pos ht] at h
      cases h
      exact ⟨t, rfl, ht⟩
    · rw [if_neg ht] at h
      cases h

/-- Bounded-length form of the expression-parser analysis: a parsed
expression contains no `binOp`, and the consumed tokens contain no
`Plus`. -/
theorem parseExpression_split_len (n : Nat) :
    ∀ (ts : List Token), ts.length ≤ n → ∀ ex rest,
      parseExpression ts = .ok (ex, rest) →
      exprNoBin ex = true ∧
      ∃ pre, ts = pre ++ rest ∧ ∀ t ∈ pre, t.type ≠ TokenType.PLUS := by
  induction n with
  | zero =>
    intro ts hl ex rest h
    have : ts = [] := List.length_eq_zero.mp (Nat.le_zero.mp hl)
    subst this
    simp [parseExpression] at h
  | succ n ih =>
    intro ts hl ex rest h
    cases ts with
    | nil => simp [parseExpression] at h
    | cons t rest0 =>
      obtain ⟨ty, val⟩ := t
      cases ty with
      | INTEGER =>
        simp only [parseExpression, Except.ok.injEq, Prod.mk.injEq] at h
        obtain ⟨rfl, rfl⟩ := h
        exact ⟨rfl, [⟨TokenType.INTEGER, val⟩], rfl, by simp⟩
      | STRING =>
        simp only [parseExpression, Except.ok.injEq, Prod.mk.injEq] at h
        obtain ⟨rfl, rfl⟩ := h
        exact ⟨rfl, [⟨TokenType.STRING, val⟩], rfl, by simp⟩
      | IDENTIFIER =>
        simp only [parseExpression, Except.ok.injEq, Prod.mk.injEq] at h
        obtain ⟨rfl, rfl⟩ := h
        exact ⟨rfl, [⟨TokenType.IDENTIFIER, val⟩], rfl, by simp⟩
      | INPUT =>
        cases rest0 with
        | nil => simp [parseExpression] at h
        | cons l rest1 =>
          simp only [parseExpression] at h
          by_cases hlp : l.type = TokenType.LPAREN
          · rw [if_pos hlp] at h
            cases hpe : parseExpression rest1 with
            | error er => simp only [hpe] at h; cases h
            | ok q =>
              obtain ⟨p, rest2⟩ := q
              simp only [hpe] at h
              cases rest2 with
              | nil => cases h
              | cons r rest3 =>
                dsimp only at h
                by_cases hrp : r.type = TokenType.RPAREN
                · rw [if_pos hrp] at h
                  simp only [Except.ok.injEq, Prod.mk.injEq] at h
                  obtain ⟨rfl, rfl⟩ := h
                  have hlen : rest1.length ≤ n := by
                    simp only [List.length_cons] at hl
                    omega
                  obtain ⟨hnb, pre1, heq, hnp⟩ :=
                    ih rest1 hlen p (r :: rest3) hpe
                  refine ⟨by simpa [exprNoBin] using hnb,
                    ⟨TokenType.INPUT, val⟩ :: l :: (pre1 ++ [r]), ?_, ?_⟩
                  · simp [heq]
                  · intro u hu
                    simp only [List.mem_cons, List.mem_append,
                      List.mem_singleton] at hu
                    rcases hu with rfl | rfl | hu | rfl | hu
                    · simp
                    · rw [hlp]; simp
                    · exact hnp u hu
                    · rw [hrp]; simp
                    · simp at hu
                · rw [if_neg hrp] at h; cases h
          · rw [if_neg hlp] at h; cases h
      | PRINT => simp [parseExpression] at h
      | PLUS => simp [parseExpression] at h
      | LPAREN => simp [parseExpression] at h
      | RPAREN => simp [parseExpression] at h
      | EOF => simp [parseExpression] at h
      | EQUALS => simp [parseExpression] at h
      | COMMENT => simp [parseExpression] at h

/-- Expression-parser analysis: the parsed expression contains no
`binOp` and the consumed tokens contain no `Plus`. -/
theorem parseExpression_split (ts : List Token) (ex : Expr) (rest : List Token)
    (h : parseExpression ts = .ok (ex, rest)) :
    exprNoBin ex = true ∧
    ∃ pre, ts = pre ++ rest ∧ ∀ t ∈ pre, t.type ≠ TokenType.PLUS :=
  parseExpression_split_len ts.length ts le_rfl ex rest h

/-- Statement-parser analysis: a parsed statement contains no `binOp`
and the consumed tokens contain no `Plus`. -/
theorem parseStatement_split (ts : List Token) (s : Stmt) (rest : List Token)
    (h : parseStatement ts = .ok (s, rest)) :
    stmtNoBin s = true ∧
    ∃ pre, ts = pre ++ rest ∧ ∀ t ∈ pre, t.type ≠ TokenType.PLUS := by
  cases ts with
  | nil => simp [parseStatement] at h
  | cons t rest0 =>
    obtain ⟨ty, val⟩ := t
    cases ty with
    | PRINT =>
      simp only [parseStatement] at h
      cases hc1 : consumeTok TokenType.LPAREN rest0 with
      | error er => simp only [hc1] at h; cases h
      | ok r1 =>
        simp only [hc1] at h
        cases hpe : parseExpression r1 with
        | error er => simp only [hpe] at h; cases h
        | ok q =>
          obtain ⟨ex, r2⟩ := q
          simp only [hpe] at h
          cases hc2 : consumeTok TokenType.RPAREN r2 with
          | error er => simp only [hc2] at h; cases h
          | ok r3 =>
            simp only [hc2, Except.ok.injEq, Prod.mk.injEq] at h
            obtain ⟨rfl, rfl⟩ := h
            obtain ⟨l, rfl, hl⟩ := consumeTok_ok _ _ _ hc1
            obtain ⟨hnb, pre1, rfl, hnp⟩ := parseExpression_split _ _ _ hpe
            obtain ⟨r, hr2, hrt⟩ := consumeTok_ok _ _ _ hc2
            refine ⟨by simpa [stmtNoBin] using hnb,
              ⟨TokenType.PRINT, val⟩ :: l :: (pre1 ++ [r]), ?_, ?_⟩
            · simp [hr2]
            · intro u hu
              simp only [List.mem_cons, List.mem_append,
                List.mem_singleton] at hu
              rcases hu with rfl | rfl | hu | rfl | hu
              · simp
              · rw [hl]; simp
              · exact hnp u hu
              · rw [hrt]; simp
              · simp at hu
    | IDENTIFIER =>
      simp only [parseStatement] at h
      cases hc1 : consumeTok TokenType.EQUALS rest0 with
      | error er => simp only [hc1] at h; cases h
      | ok r1 =>
        simp only [hc1] at h
        cases hpe : parseExpression r1 with
        | error er => simp only [hpe] at h; cases h
        | ok q =>
          obtain ⟨v, r2⟩ := q
          simp only [hpe, Except.ok.injEq, Prod.mk.injEq] at h
          obtain ⟨rfl, rfl⟩ := h
          obtain ⟨l, rfl, hl⟩ := consumeTok_ok _ _ _ hc1
          obtain ⟨hnb, pre1, rfl, hnp⟩ := parseExpression_split _ _ _ hpe
          refine ⟨by simpa [stmtNoBin] using hnb,
            ⟨TokenType.IDENTIFIER, val⟩ :: l :: pre1, by simp, ?_⟩
          intro u hu
          simp only [List.mem_cons] at hu
          rcases hu with rfl | rfl | hu
          · simp
          · rw [hl]; simp
          · exact hnp u hu
    | INTEGER => simp [parseStatement] at h
    | STRING => simp [parseStatement] at h
    | PLUS => simp [parseStatement] at h
    | LPAREN => simp [parseStatement] at h
    | RPAREN => simp [parseStatement] at h
    | EOF => simp [parseStatement] at h
    | EQUALS => simp [parseStatement] at h
    | INPUT => simp [parseStatement] at h
    | COMMENT => simp [parseStatement] at h

/-- Program-parser analysis over the iteration bound: every statement
of an accepted program is `binOp`-free and the accepted token sequence
contains no `Plus` token. -/
theorem parseProgramAux_split (fuel : Nat) :
    ∀ ts stmts, parseProgramAux fuel ts = .ok stmts →
      (∀ s ∈ stmts, stmtNoBin s = true) ∧ ∀ t ∈ ts, t.type ≠ TokenType.PLUS := by
  induction fuel with
  | zero => intro ts stmts h; simp [parseProgramAux] at h
  | succ fuel ih =>
    intro ts stmts h
    simp only [parseProgramAux] at h
    split at h
    · cases hps : parseStatement ts with
      | error er => simp only [hps] at h; cases h
      | ok q =>
        obtain ⟨s, rest⟩ := q
        simp only [hps] at h
        cases hrec : parseProgramAux fuel rest with
        | error er => simp only [hrec] at h; cases h
        | ok stmts2 =>
          simp only [hrec, Except.ok.injEq] at h
          subst h
          obtain ⟨hnb, pre, heq, hnp⟩ := parseStatement_split _ _ _ hps
          obtain ⟨hnb2, hnp2⟩ := ih rest stmts2 hrec
          subst heq
          refine ⟨?_, ?_⟩
          · intro u hu
            rcases List.mem_cons.mp hu with rfl | hu
            · exact hnb
            · exact hnb2 u hu
          · intro u hu
            rcases List.mem_append.mp hu with hu | hu
            · exact hnp u hu
            · exact hnp2 u hu
    · cases ts with
      | nil => cases h
      | cons t rest0 =>
        cases rest0 with
        | nil =>
          dsimp only at h
          by_cases hte : t.type = TokenType.EOF
          · rw [if_pos hte] at h
            simp only [Except.ok.injEq] at h
            subst h
            refine ⟨by simp, ?_⟩
            intro u hu
            rcases List.mem_singleton.mp hu with rfl
            rw [hte]
            simp
          · rw [if_neg hte] at h; cases h
        | cons t2 rest1 => dsimp only at h; cases h

/-- Program-parser analysis: every statement of an accepted program is
`binOp`-free and the token sequence contains no `Plus`. -/
theorem parseProgram_split (ts : List Token) (stmts : List Stmt)
    (h : parseProgram ts = .ok stmts) :
    (∀ s ∈ stmts, stmtNoBin s = true) ∧ ∀ t ∈ ts, t.type ≠ TokenType.PLUS :=
  parseProgramAux_split _ ts stmts h

/-- Chained failure: if some statement reads a variable that no earlier
statement assigned and that is unbound at the start, IR generation of
the whole list fails with the undefined-variable error (on `binOp`-free
programs). -/
theorem generate_fails (pre : List Stmt) :
    ∀ (s : Stmt) (post : List Stmt) (σ : GenState) (x : String),
      (∀ t ∈ pre ++ s :: post, stmtNoBin t = true) →
      stmtReads x s = true →
      (∀ t ∈ pre, stmtAssigns x t = false) →
      lookupVar σ.varTable x = none →
      ∃ n, generate (pre ++ s :: post) σ = .error (GenErr.undefinedVariable n) := by
  induction pre with
  | nil =>
    intro s post σ x hnb hr hpre hx
    obtain ⟨n, hfail⟩ := lowerStatement_fails s σ x (hnb s (by simp)) hr hx
    exact ⟨n, by simp [generate, hfail]⟩
  | cons t pre ih =>
    intro s post σ x hnb hr hpre hx
    cases ht : lowerStatement t σ with
    | error er =>
      obtain ⟨n, rfl⟩ := lowerStatement_err t σ er (hnb t (by simp)) ht
      exact ⟨n, by simp [generate, ht]⟩
    | ok σ1 =>
      have hx1 := lowerStatement_unbound t σ σ1 x (hpre t (by simp)) ht hx
      obtain ⟨n, hn⟩ :=
        ih s post σ1 x
          (fun u hu => hnb u (List.mem_cons_of_mem _ hu))
          hr (fun u hu => hpre u (List.mem_cons_of_mem _ hu)) hx1
      refine ⟨n, ?_⟩
      show generate (t :: (pre ++ s :: post)) σ = _
      simp only [generate, ht]
      exact hn

/-- The projection `resLabels` distributes over list concatenation. -/
theorem resLabels_append (l1 l2 : List IRInstr) :
    resLabels (l1 ++ l2) = resLabels l1 ++ resLabels l2 := by
  simp [resLabels, List.filterMap_append]

/-- The bare-variable print dispatch never appends an input
instruction. -/
theorem resLabels_varPrint (v : IRValue) : resLabels (varPrintInstrs v) = [] := by
  cases v <;> rfl

/-- The general-expression print dispatch never appends an input
instruction. -/
theorem resLabels_exprPrint (v : IRValue) : resLabels [exprPrintInstr v] = [] := by
  cases v <;> rfl

/-- The label invariant of the generator state: the pool labels are
exactly `string_0 … string_(count-1)` in order, and the input result
labels seen so far are `input_result_k` for a strictly increasing list
of indices bounded by the counter. -/
def LabelInv (σ : GenState) : Prop :=
  σ.stringConstants.map StrConst.label = (List.range σ.stringCount).map Label.strLabel ∧
  ∃ ks : List Nat, resLabels σ.instructions = ks.map Label.inputRes ∧
    ks.Pairwise (· < ·) ∧ ∀ k ∈ ks, k ≤ σ.stringCount

/-- Statement lowering preserves the label invariant, provided every
`input` prompt in the statement is a string literal. -/
theorem lowerStatement_inv (s : Stmt) (σ σ1 : GenState)
    (hp : stmtPromptsLit s = true) (hinv : LabelInv σ)
    (h : lowerStatement s σ = .ok σ1) : LabelInv σ1 := by
  obtain ⟨hpool, ks, hres, hsort, hbound⟩ := hinv
  cases s with
  | printStmt ex =>
    cases hex : ex with
    | var n =>
      subst hex
      simp only [lowerStatement] at h
      cases hv : lookupVar σ.varTable n with
      | none => simp only [hv] at h; cases h
      | some v =>
        simp only [hv, Except.ok.injEq] at h
        subst h
        refine ⟨hpool, ks, ?_, hsort, hbound⟩
        simp [resLabels_append, resLabels_varPrint, hres]
    | stringLit s2 =>
      subst hex
      simp only [lowerStatement] at h
      cases hg : generateExpression (Expr.stringLit s2) σ with
      | error er => simp only [hg] at h; cases h
      | ok q =>
        obtain ⟨v, σa⟩ := q
        simp only [hg, Except.ok.injEq] at h
        subst h
        obtain ⟨hins, -, hcnt, hpl⟩ := generateExpression_state _ σ v σa hg
        refine ⟨hpl hpool, ks, ?_, hsort, fun k hk => le_trans (hbound k hk) hcnt⟩
        simp [resLabels_append, resLabels_exprPrint, hins, hres]
    | intLit k2 =>
      subst hex
      simp only [lowerStatement] at h
      cases hg : generateExpression (Expr.intLit k2) σ with
      | error er => simp only [hg] at h; cases h
      | ok q =>
        obtain ⟨v, σa⟩ := q
        simp only [hg, Except.ok.injEq] at h
        subst h
        obtain ⟨hins, -, hcnt, hpl⟩ := generateExpression_state _ σ v σa hg
        refine ⟨hpl hpool, ks, ?_, hsort, fun k hk => le_trans (hbound k hk) hcnt⟩
        simp [resLabels_append, resLabels_exprPrint, hins, hres]
    | binOp l r op =>
      subst hex
      simp only [lowerStatement] at h
      cases hg : generateExpression (Expr.binOp l r op) σ with
      | error er => simp only [hg] at h; cases h
      | ok q =>
        obtain ⟨v, σa⟩ := q
        simp only [hg, Except.ok.injEq] at h
        subst h
        obtain ⟨hins, -, hcnt, hpl⟩ := generateExpression_state _ σ v σa hg
        refine ⟨hpl hpool, ks, ?_, hsort, fun k hk => le_trans (hbound k hk) hcnt⟩
        simp [resLabels_append, resLabels_exprPrint, hins, hres]
    | inputE p =>
      subst hex
      simp only [lowerStatement] at h
      cases hg : generateExpression (Expr.inputE p) σ with
      | error er => simp only [hg] at h; cases h
      | ok q =>
        obtain ⟨v, σa⟩ := q
        simp only [hg, Except.ok.injEq] at h
        subst h
        obtain ⟨hins, -, hcnt, hpl⟩ := generateExpression_state _ σ v σa hg
        refine ⟨hpl hpool, ks, ?_, hsort, fun k hk => le_trans (hbound k hk) hcnt⟩
        simp [resLabels_append, resLabels_exprPrint, hins, hres]
  | assign n rhs =>
    cases hrhs : rhs with
    | inputE p =>
      subst hrhs
      cases hpp : p with
      | stringLit str =>
        subst hpp
        simp only [lowerStatement, generateExpression, isInputExpr,
          if_true, Except.ok.injEq] at h
        subst h
        refine ⟨?_, ks ++ [σ.stringCount + 1], ?_, ?_, ?_⟩
        · simp [List.range_succ, hpool]
        · rw [resLabels_append, hres]
          simp [resLabels]
        · rw [List.pairwise_append]
          refine ⟨hsort, by simp, ?_⟩
          intro a ha b hb
          rcases List.mem_singleton.mp hb with rfl
          exact Nat.lt_succ_of_le (hbound a ha)
        · intro k hk
          rcases List.mem_append.mp hk with hk | hk
          · exact le_trans (hbound k hk) (Nat.le_succ _)
          · rcases List.mem_singleton.mp hk with rfl
            exact le_refl _
      | intLit k2 => subst hpp; simp [stmtPromptsLit, exprPromptsLit] at hp
      | var m => subst hpp; simp [stmtPromptsLit, exprPromptsLit] at hp
      | binOp l r op => subst hpp; simp [stmtPromptsLit, exprPromptsLit] at hp
      | inputE p2 => subst hpp; simp [stmtPromptsLit, exprPromptsLit] at hp
    | stringLit str =>
      subst hrhs
      simp only [lowerStatement, isInputExpr] at h
      cases hg : generateExpression (Expr.stringLit str) σ with
      | error er => simp only [hg] at h; cases h
      | ok q =>
        obtain ⟨v, σa⟩ := q
        simp only [hg, Except.ok.injEq] at h
        subst h
        obtain ⟨hins, -, hcnt, hpl⟩ := generateExpression_state _ σ v σa hg
        exact ⟨hpl hpool, ks, by simp [hins, hres],
          hsort, fun k hk => le_trans (hbound k hk) hcnt⟩
    | intLit k2 =>
      subst hrhs
      simp only [lowerStatement, isInputExpr] at h
      cases hg : generateExpression (Expr.intLit k2) σ with
      | error er => simp only [hg] at h; cases h
      | ok q =>
        obtain ⟨v, σa⟩ := q
        simp only [hg, Except.ok.injEq] at h
        subst h
        obtain ⟨hins, -, hcnt, hpl⟩ := generateExpression_state _ σ v σa hg
        exact ⟨hpl hpool, ks, by simp [hins, hres],
          hsort, fun k hk => le_trans (hbound k hk) hcnt⟩
    | var m =>
      subst hrhs
      simp only [lowerStatement, isInputExpr] at h
      cases hg : generateExpression (Expr.var m) σ with
      | error er => simp only [hg] at h; cases h
      | ok q =>
        obtain ⟨v, σa⟩ := q
        simp only [hg, Except.ok.injEq] at h
        subst h
        obtain ⟨hins, -, hcnt, hpl⟩ := generateExpression_state _ σ v σa hg
        exact ⟨hpl hpool, ks, by simp [hins, hres],
          hsort, fun k hk => le_trans (hbound k hk) hcnt⟩
    | binOp l r op =>
      subst hrhs
      simp only [lowerStatement, isInputExpr] at h
      cases hg : generateExpression (Expr.binOp l r op) σ with
      | error er => simp only [hg] at h; cases h
      | ok q =>
        obtain ⟨v, σa⟩ := q
        simp only [hg, Except.ok.injEq] at h
        subst h
        obtain ⟨hins, -, hcnt, hpl⟩ := generateExpression_state _ σ v σa hg
        exact ⟨hpl hpool, ks, by simp [hins, hres],
          hsort, fun k hk => le_trans (hbound k hk) hcnt⟩

/-- Program lowering preserves the label invariant. -/
theorem generate_inv (stmts : List Stmt) :
    ∀ σ σ2, (∀ s ∈ stmts, stmtPromptsLit s = true) → LabelInv σ →
      generate stmts σ = .ok σ2 → LabelInv σ2 := by
  induction stmts with
  | nil =>
    intro σ σ2 hp hinv h
    simp only [generate, Except.ok.injEq] at h
    subst h
    exact hinv
  | cons s rest ih =>
    intro σ σ2 hp hinv h
    simp only [generate] at h
    cases hs : lowerStatement s σ with
    | error er => simp only [hs] at h; cases h
    | ok σ1 =>
      simp only [hs] at h
      exact ih σ1 σ2 (fun u hu => hp u (List.mem_cons_of_mem _ hu))
        (lowerStatement_inv s σ σ1 (hp s (by simp)) hinv hs) h

/-- C1: the integer-print routine emitted by the assembly generator
does not produce the most-significant-first decimal representation:
the block after the `Reverse the string` comment contains no reversal
loop, so for the value 10 the routine writes the bytes `01` followed by
a newline instead of the decimal representation `10` followed by a
newline.  The zero case (`0` then newline) and single digits are the
only values printed correctly. -/
theorem c1_print_int_emits_unreversed_digits :
    emittedIntChars 10 = ['0', '1', '\n'] ∧
    decimalNewline 10 = ['1', '0', '\n'] ∧
    emittedIntChars 10 ≠ decimalNewline 10 ∧
    emittedIntChars 0 = ['0', '\n'] ∧
    "2:  // Reverse the string" ∈ printIntBlock := by
  refine ⟨by decide, by decide, by decide, by decide, by decide⟩

/-- C3 counterexample: lowering the same string literal twice pools two
entries with the same value — the constant pool is not deduplicated. -/
theorem c3_pool_holds_duplicate_values :
    generate [Stmt.printStmt (Expr.stringLit "a"),
              Stmt.printStmt (Expr.stringLit "a")] initState =
      .ok ⟨[⟨"a", .strLabel 0⟩, ⟨"a", .strLabel 1⟩],
           [.printCall (.strLabel 0), .printCall (.strLabel 1)], 2, []⟩ ∧
    ¬ (([⟨"a", Label.strLabel 0⟩, ⟨"a", Label.strLabel 1⟩] : List StrConst).map
        StrConst.value).Nodup ∧
    ([⟨"a", Label.strLabel 0⟩, ⟨"a", Label.strLabel 1⟩] : List StrConst).length ≠ 1 := by
  refine ⟨by decide, by decide, by decide⟩

/-- C3 amended: every string-literal occurrence appends a fresh pooled
constant with a fresh label; lowering two identical literals yields two
pool entries with the same value and distinct labels. -/
theorem c3_pool_appends_fresh_entries (s : String) :
    generate [Stmt.printStmt (Expr.stringLit s),
              Stmt.printStmt (Expr.stringLit s)] initState =
      .ok ⟨[⟨s, .strLabel 0⟩, ⟨s, .strLabel 1⟩],
           [.printCall (.strLabel 0), .printCall (.strLabel 1)], 2, []⟩ ∧
    Label.strLabel 0 ≠ Label.strLabel 1 :=
  ⟨rfl, by decide⟩

/-- C4 counterexample: for a binding that is a `ReadInput` descriptor
the two print-dispatch branches differ — the bare-variable branch
emits a string print of the result label while the lowered-expression
branch emits an integer print of the descriptor itself. -/
theorem c4_dispatch_differs_on_input_binding :
    varPrintInstrs (IRValue.inputVal (IRValue.strConst "p" (Label.strLabel 0))
        (Label.inputRes 1)) = [IRInstr.printCall (Label.inputRes 1)] ∧
    exprPrintInstr (IRValue.inputVal (IRValue.strConst "p" (Label.strLabel 0))
        (Label.inputRes 1)) =
      IRInstr.printInt (IRValue.inputVal (IRValue.strConst "p" (Label.strLabel 0))
        (Label.inputRes 1)) ∧
    varPrintInstrs (IRValue.inputVal (IRValue.strConst "p" (Label.strLabel 0))
        (Label.inputRes 1)) ≠
      [exprPrintInstr (IRValue.inputVal (IRValue.strConst "p" (Label.strLabel 0))
        (Label.inputRes 1))] := by
  refine ⟨rfl, rfl, by decide⟩

/-- C4 amended: the two print-dispatch branches append the same single
print instruction whenever the underlying value is a string constant,
an integer or an add — but not when it is a `ReadInput` descriptor. -/
theorem c4_dispatch_agrees_on_plain_values (v : IRValue)
    (h : plainPrintableKind v = true) :
    varPrintInstrs v = [exprPrintInstr v] := by
  cases v with
  | strConst s lbl => rfl
  | intVal n => rfl
  | add l r => rfl
  | varRef n => simp [plainPrintableKind] at h
  | inputVal p res => simp [plainPrintableKind] at h

/-- Witness for the amended C4 dispatch agreement at a concrete
integer value. -/
theorem c4_dispatch_agrees_on_plain_values_witness :
    plainPrintableKind (IRValue.intVal 5) = true ∧
    varPrintInstrs (IRValue.intVal 5) = [exprPrintInstr (IRValue.intVal 5)] :=
  ⟨by decide, c4_dispatch_agrees_on_plain_values (IRValue.intVal 5) (by decide)⟩

/-- C7: compilation is deterministic — the pipeline is a pure function
of the source text (the generator state is freshly initialized inside
`compileToAssembly`), so two runs on the same text give the same
assembly text or the same error. -/
theorem c7_compile_deterministic (src : String) :
    compileToAssembly src = compileToAssembly src := rfl

/-- C2 counterexample: when an `input` prompt is a variable bound to an
already pooled string, lowering the prompt allocates nothing, so the
result label `input_result_{string_count}` repeats — two reads in the
program `s = "p"; a = input(s); b = input(s)` both get the result label
`input_result_1`, violating pairwise distinctness. -/
theorem c2_duplicate_input_result_labels :
    generate [Stmt.assign "s" (Expr.stringLit "p"),
              Stmt.assign "a" (Expr.inputE (Expr.var "s")),
              Stmt.assign "b" (Expr.inputE (Expr.var "s"))] initState =
      .ok ⟨[⟨"p", .strLabel 0⟩],
           [.inputInstr (.inputVal (.strConst "p" (.strLabel 0)) (.inputRes 1)),
            .inputInstr (.inputVal (.strConst "p" (.strLabel 0)) (.inputRes 1))],
           1,
           [("b", .inputVal (.strConst "p" (.strLabel 0)) (.inputRes 1)),
            ("a", .inputVal (.strConst "p" (.strLabel 0)) (.inputRes 1)),
            ("s", .strConst "p" (.strLabel 0))]⟩ ∧
    ¬ (resLabels
        [IRInstr.inputInstr (.inputVal (.strConst "p" (.strLabel 0)) (.inputRes 1)),
         IRInstr.inputInstr (.inputVal (.strConst "p" (.strLabel 0)) (.inputRes 1))]).Nodup := by
  refine ⟨by decide, by decide⟩

/-- C2 amended: provided every `input` prompt in the program is a
string literal, the labels assigned during IR generation are pairwise
distinct — no two pool labels coincide, no two input result labels
coincide, and no pool label equals a result label. -/
theorem c2_labels_distinct_for_literal_prompts (stmts : List Stmt)
    (hp : ∀ s ∈ stmts, stmtPromptsLit s = true)
    (σ : GenState) (hg : generate stmts initState = .ok σ) :
    (poolLabels σ).Nodup ∧ (resLabels σ.instructions).Nodup ∧
      ∀ a ∈ poolLabels σ, ∀ b ∈ resLabels σ.instructions, a ≠ b := by
  have hinv : LabelInv σ :=
    generate_inv stmts initState σ hp
      ⟨by simp [initState], [], by simp [initState, resLabels], by simp, by simp⟩ hg
  obtain ⟨hpool, ks, hres, hsort, hbound⟩ := hinv
  have hksnd : ks.Nodup :=
    List.Pairwise.imp (fun hab => Nat.ne_of_lt hab) hsort
  refine ⟨?_, ?_, ?_⟩
  · rw [poolLabels, hpool]
    exact (List.nodup_range _).map (fun a b hab => Label.strLabel.inj hab)
  · rw [hres]
    exact hksnd.map (fun a b hab => Label.inputRes.inj hab)
  · intro a ha b hb
    rw [poolLabels, hpool] at ha
    rw [hres] at hb
    obtain ⟨i, -, rfl⟩ := List.mem_map.mp ha
    obtain ⟨k, -, rfl⟩ := List.mem_map.mp hb
    intro hcon
    simp at hcon

/-- Witness for the amended C2 on the concrete one-input program
`x = input("p")`. -/
theorem c2_labels_distinct_for_literal_prompts_witness :
    (∀ s ∈ [Stmt.assign "x" (Expr.inputE (Expr.stringLit "p"))],
        stmtPromptsLit s = true) ∧
    generate [Stmt.assign "x" (Expr.inputE (Expr.stringLit "p"))] initState =
      .ok ⟨[⟨"p", .strLabel 0⟩],
           [.inputInstr (.inputVal (.strConst "p" (.strLabel 0)) (.inputRes 1))],
           1, [("x", .inputVal (.strConst "p" (.strLabel 0)) (.inputRes 1))]⟩ ∧
    ((poolLabels ⟨[⟨"p", .strLabel 0⟩],
           [.inputInstr (.inputVal (.strConst "p" (.strLabel 0)) (.inputRes 1))],
           1, [("x", .inputVal (.strConst "p" (.strLabel 0)) (.inputRes 1))]⟩).Nodup ∧
     (resLabels (GenState.instructions ⟨[⟨"p", .strLabel 0⟩],
           [.inputInstr (.inputVal (.strConst "p" (.strLabel 0)) (.inputRes 1))],
           1, [("x", .inputVal (.strConst "p" (.strLabel 0)) (.inputRes 1))]⟩)).Nodup ∧
     ∀ a ∈ poolLabels ⟨[⟨"p", .strLabel 0⟩],
           [.inputInstr (.inputVal (.strConst "p" (.strLabel 0)) (.inputRes 1))],
           1, [("x", .inputVal (.strConst "p" (.strLabel 0)) (.inputRes 1))]⟩,
       ∀ b ∈ resLabels (GenState.instructions ⟨[⟨"p", .strLabel 0⟩],
           [.inputInstr (.inputVal (.strConst "p" (.strLabel 0)) (.inputRes 1))],
           1, [("x", .inputVal (.strConst "p" (.strLabel 0)) (.inputRes 1))]⟩), a ≠ b) :=
  ⟨by decide, by decide,
   c2_labels_distinct_for_literal_prompts
     [Stmt.assign "x" (Expr.inputE (Expr.stringLit "p"))] (by decide) _ (by decide)⟩

/-- C5: in any parser-accepted program in which some statement reads a
variable no earlier statement assigned, IR generation fails with the
undefined-variable `NameError` and the lowering stage produces no
assembly output. -/
theorem c5_read_before_assign_fails (ts : List Token) (stmts : List Stmt)
    (x : String) (pre : List Stmt) (s : Stmt) (post : List Stmt)
    (hparse : parseProgram ts = .ok stmts)
    (hsplit : stmts = pre ++ s :: post)
    (hreads : stmtReads x s = true)
    (hpre : ∀ t ∈ pre, stmtAssigns x t = false) :
    ∃ n, lowerAndEmit stmts = .error (CompileErr.genFailure (GenErr.undefinedVariable n)) := by
  obtain ⟨hnb, -⟩ := parseProgram_split ts stmts hparse
  subst hsplit
  obtain ⟨n, hn⟩ :=
    generate_fails pre s post initState x hnb hreads hpre (by simp [initState, lookupVar])
  exact ⟨n, by simp [lowerAndEmit, hn]⟩

/-- Witness for C5 on the one-statement program `print(x)` with no
prior assignment. -/
theorem c5_read_before_assign_fails_witness :
    parseProgram [⟨TokenType.PRINT, none⟩, ⟨TokenType.LPAREN, none⟩,
        ⟨TokenType.IDENTIFIER, some "x"⟩, ⟨TokenType.RPAREN, none⟩,
        ⟨TokenType.EOF, none⟩] = .ok [Stmt.printStmt (Expr.var "x")] ∧
    stmtReads "x" (Stmt.printStmt (Expr.var "x")) = true ∧
    ∃ n, lowerAndEmit [Stmt.printStmt (Expr.var "x")] =
      .error (CompileErr.genFailure (GenErr.undefinedVariable n)) :=
  ⟨by decide, by decide,
   c5_read_before_assign_fails
     [⟨TokenType.PRINT, none⟩, ⟨TokenType.LPAREN, none⟩,
      ⟨TokenType.IDENTIFIER, some "x"⟩, ⟨TokenType.RPAREN, none⟩,
      ⟨TokenType.EOF, none⟩]
     [Stmt.printStmt (Expr.var "x")] "x" [] (Stmt.printStmt (Expr.var "x")) []
     (by decide) rfl (by decide) (by simp)⟩

/-- C6: compiling `x = input("p")` followed by `print(x)` produces
exactly one `ReadInput` instruction and one `PrintString` whose label
is that read's result label, and the emitted assembly contains exactly
one read syscall, two write syscalls (the prompt write and the output
write), one prompt-address load (`string_0`) and two
result-buffer-address loads (`input_result_1`: the read target and the
output write source) — no duplicate reads or writes. -/
theorem c6_input_roundtrip_shape :
    irOf "x = input(\x22p\x22)\nprint(x)" =
      .ok ⟨[⟨"p", .strLabel 0⟩],
           [.inputInstr (.inputVal (.strConst "p" (.strLabel 0)) (.inputRes 1)),
            .printCall (.inputRes 1)],
           1, [("x", .inputVal (.strConst "p" (.strLabel 0)) (.inputRes 1))]⟩ ∧
    ((asmLinesOf "x = input(\x22p\x22)\nprint(x)").map fun ls =>
      (countLine ls "    mov     x16, #3            // macOS read syscall",
       countLine ls "    mov     x16, #4            // macOS write syscall",
       countLine ls "    adrp    x1, string_0@PAGE",
       countLine ls "    adrp    x1, input_result_1@PAGE")) = .ok (1, 2, 1, 2) := by
  refine ⟨by decide, by decide⟩

/-- C8: the parser never consumes a `Plus` token — every accepted token
sequence contains no `Plus`, and the resulting syntax tree contains no
`binOp` node, so binary addition is unreachable from any concrete
program the parser accepts. -/
theorem c8_parser_never_accepts_plus (ts : List Token) (stmts : List Stmt)
    (h : parseProgram ts = .ok stmts) :
    (∀ s ∈ stmts, stmtNoBin s = true) ∧ ∀ t ∈ ts, t.type ≠ TokenType.PLUS :=
  parseProgram_split ts stmts h

/-- Witness for C8 on the accepted token sequence of `print("hi")`. -/
theorem c8_parser_never_accepts_plus_witness :
    parseProgram [⟨TokenType.PRINT, none⟩, ⟨TokenType.LPAREN, none⟩,
        ⟨TokenType.STRING, some "hi"⟩, ⟨TokenType.RPAREN, none⟩,
        ⟨TokenType.EOF, none⟩] = .ok [Stmt.printStmt (Expr.stringLit "hi")] ∧
    ((∀ s ∈ [Stmt.printStmt (Expr.stringLit "hi")], stmtNoBin s = true) ∧
     ∀ t ∈ [(⟨TokenType.PRINT, none⟩ : Token), ⟨TokenType.LPAREN, none⟩,
        ⟨TokenType.STRING, some "hi"⟩, ⟨TokenType.RPAREN, none⟩,
        ⟨TokenType.EOF, none⟩], t.type ≠ TokenType.PLUS) :=
  ⟨by decide,
   c8_parser_never_accepts_plus
     [⟨TokenType.PRINT, none⟩, ⟨TokenType.LPAREN, none⟩,
      ⟨TokenType.STRING, some "hi"⟩, ⟨TokenType.RPAREN, none⟩,
      ⟨TokenType.EOF, none⟩]
     [Stmt.printStmt (Expr.stringLit "hi")] (by decide)⟩

/-- When the remaining input holds no closing quote, `get_string`
consumes everything and returns the whole remainder as the payload. -/
theorem getStringChars_no_quote (l : List Char) (h : ∀ c ∈ l, c ≠ dquote) :
    getStringChars l = (l, []) := by
  induction l with
  | nil => rfl
  | cons c rest ih =>
    simp only [getStringChars]
    rw [if_neg (h c (by simp))]
    simp [ih (fun u hu => h u (by simp [hu]))]

/-- C9: the lexer never fails on an unterminated string literal —
whenever the tokenize loop reaches a double quote whose remaining input
holds no closing quote (the loop bound always exceeds the remaining
length by at least one), it returns a `String` token whose payload is
every remaining character, followed by the `EOF` sentinel, instead of
raising. -/
theorem c9_unterminated_string_lexes (fuel : Nat) (rest : List Char)
    (hf : rest.length + 2 ≤ fuel) (hq : ∀ c ∈ rest, c ≠ dquote) :
    tokenizeAux fuel (dquote :: rest) =
      .ok [⟨TokenType.STRING, some (String.mk rest)⟩, ⟨TokenType.EOF, none⟩] := by
  obtain ⟨f, rfl⟩ : ∃ f, fuel = f + 1 := ⟨fuel - 1, by omega⟩
  obtain ⟨f2, rfl⟩ : ∃ f2, f = f2 + 1 := ⟨f - 1, by omega⟩
  simp only [tokenizeAux]
  rw [if_neg (by decide), if_neg (by decide), if_neg (by decide), if_neg (by decide),
      if_neg (by decide), if_neg (by decide)]
  simp only [if_true]
  rw [getStringChars_no_quote rest hq]
  rfl

/-- Witness for C9 on the unterminated input `"abc`. -/
theorem c9_unterminated_string_lexes_witness :
    (['a', 'b', 'c'] : List Char).length + 2 ≤ 6 ∧
    (∀ c ∈ (['a', 'b', 'c'] : List Char), c ≠ dquote) ∧
    tokenizeAux 6 (dquote :: ['a', 'b', 'c']) =
      .ok [⟨TokenType.STRING, some (String.mk ['a', 'b', 'c'])⟩,
           ⟨TokenType.EOF, none⟩] :=
  ⟨by decide, by decide,
   c9_unterminated_string_lexes 6 ['a', 'b', 'c'] (by decide) (by decide)⟩

/-- C10 counterexample: lowering the non-input assignment `y = "s"`
leaves the instruction list unchanged but does not only update the
symbol table — the string-constant pool (and the label counter) change
as well. -/
theorem c10_assign_updates_pool :
    lowerStatement (Stmt.assign "y" (Expr.stringLit "s")) initState =
      .ok ⟨[⟨"s", .strLabel 0⟩], [], 1, [("y", .strConst "s" (.strLabel 0))]⟩ ∧
    isInputExpr (Expr.stringLit "s") = false ∧
    (⟨[⟨"s", .strLabel 0⟩], [], 1, [("y", .strConst "s" (.strLabel 0))]⟩ :
        GenState).instructions = initState.instructions ∧
    (⟨[⟨"s", .strLabel 0⟩], [], 1, [("y", .strConst "s" (.strLabel 0))]⟩ :
        GenState).stringConstants ≠ initState.stringConstants := by
  refine ⟨by decide, by decide, by decide, by decide⟩

/-- C10 amended: lowering an assignment whose right-hand side is not
syntactically an `input()` call appends no IR instruction; it updates
the symbol table (and, when the right-hand side lowers fresh string
literals, the pool and counter).  In particular `y = x` stores for `y`
exactly the value `x` was bound to — including a `ReadInput`
descriptor — and appends no second read. -/
theorem c10_non_input_assign_appends_no_instruction (n : String) (rhs : Expr)
    (σ σ1 : GenState) (hni : isInputExpr rhs = false)
    (hok : lowerStatement (Stmt.assign n rhs) σ = .ok σ1) :
    σ1.instructions = σ.instructions ∧
    ∀ x v, rhs = Expr.var x → lookupVar σ.varTable x = some v →
      σ1 = { σ with varTable := updateVars σ.varTable n v } := by
  simp only [lowerStatement] at hok
  cases hg : generateExpression rhs σ with
  | error er => simp only [hg] at hok; cases hok
  | ok q =>
    obtain ⟨v, σa⟩ := q
    simp only [hg, hni, Bool.false_eq_true, if_false, Except.ok.injEq] at hok
    subst hok
    obtain ⟨hins, hvt, -, -⟩ := generateExpression_state _ σ v σa hg
    refine ⟨hins, ?_⟩
    intro x w hx hl
    subst hx
    simp only [generateExpression, hl, Except.ok.injEq, Prod.mk.injEq] at hg
    obtain ⟨rfl, rfl⟩ := hg
    rfl

/-- Witness for the amended C10: with `x` bound to an input descriptor,
lowering `y = x` appends no instruction and shares the descriptor. -/
theorem c10_non_input_assign_appends_no_instruction_witness :
    isInputExpr (Expr.var "x") = false ∧
    lowerStatement (Stmt.assign "y" (Expr.var "x"))
      ⟨[⟨"p", .strLabel 0⟩],
       [.inputInstr (.inputVal (.strConst "p" (.strLabel 0)) (.inputRes 1))],
       1, [("x", .inputVal (.strConst "p" (.strLabel 0)) (.inputRes 1))]⟩ =
      .ok ⟨[⟨"p", .strLabel 0⟩],
       [.inputInstr (.inputVal (.strConst "p" (.strLabel 0)) (.inputRes 1))],
       1, [("y", .inputVal (.strConst "p" (.strLabel 0)) (.inputRes 1)),
           ("x", .inputVal (.strConst "p" (.strLabel 0)) (.inputRes 1))]⟩ ∧
    (GenState.instructions
      ⟨[⟨"p", .strLabel 0⟩],
       [.inputInstr (.inputVal (.strConst "p" (.strLabel 0)) (.inputRes 1))],
       1, [("y", .inputVal (.strConst "p" (.strLabel 0)) (.inputRes 1)),
           ("x", .inputVal (.strConst "p" (.strLabel 0)) (.inputRes 1))]⟩ =
     GenState.instructions
      ⟨[⟨"p", .strLabel 0⟩],
       [.inputInstr (.inputVal (.strConst "p" (.strLabel 0)) (.inputRes 1))],
       1, [("x", .inputVal (.strConst "p" (.strLabel 0)) (.inputRes 1))]⟩) :=
  ⟨by decide, by decide,
   (c10_non_input_assign_appends_no_instruction "y" (Expr.var "x")
     ⟨[⟨"p", .strLabel 0⟩],
      [.inputInstr (.inputVal (.strConst "p" (.strLabel 0)) (.inputRes 1))],
      1, [("x", .inputVal (.strConst "p" (.strLabel 0)) (.inputRes 1))]⟩
     ⟨[⟨"p", .strLabel 0⟩],
      [.inputInstr (.inputVal (.strConst "p" (.strLabel 0)) (.inputRes 1))],
      1, [("y", .inputVal (.strConst "p" (.strLabel 0)) (.inputRes 1)),
          ("x", .inputVal (.strConst "p" (.strLabel 0)) (.inputRes 1))]⟩
     (by decide) (by decide)).1⟩
